import Mathlib

/-!
# Verification of the gohome ingress/bookmark aggregation logic

Shallow embedding of the pure core of `internal/k8s.go`, `internal/config.go`
and the `handleHome` handler.  Go strings are modelled as Lean `String`
(a list of Unicode code points in this toolchain); byte-wise comparison of
UTF-8 encoded strings coincides with code-point lexicographic comparison, so
Go's `<` on strings is Lean's `<` on `String`.  Go maps are modelled as
association lists (iteration order is arbitrary in Go, which the determinism
claim quantifies over by permuting the list).  `sort.Slice` is modelled by
insertion sort with the comparator of the source; it produces a sorted
permutation, which is all the source guarantees (`sort.Slice` is not stable).
Effects: a possibly-absent cluster client is an `Option`, a fallible API call
an `Except String`.
-/

namespace GoHome

/-- The annotation key `HideAnnotation = "gohome.stringer.sh/hide"` from k8s.go. -/
def hideKey : String := "gohome.stringer.sh/hide"

/-- Structure `IngressInfo` from k8s.go: the simplified ingress for display. -/
structure IngressInfo where
  Name : String
  Namespace : String
  Host : String
  Path : String
  URL : String
deriving DecidableEq

/-- One entry of `networkingv1.HTTPIngressPath`: only the `Path` field is read. -/
structure HTTPIngressPath where
  path : String
deriving DecidableEq

/-- Type `networkingv1.HTTPIngressRuleValue`: the list of paths. -/
structure HTTPIngressRuleValue where
  paths : List HTTPIngressPath
deriving DecidableEq

/-- Type `networkingv1.IngressRule`: `Host` and the optional `HTTP` block. -/
structure IngressRule where
  host : String
  http : Option HTTPIngressRuleValue
deriving DecidableEq

/-- Type `networkingv1.IngressTLS`: only the `Hosts` list is read. -/
structure IngressTLS where
  hosts : List String
deriving DecidableEq

/-- A `networkingv1.Ingress` restricted to the fields the program reads:
`Name`, `Namespace`, `ObjectMeta.Annotations` (as an association list, `anns`),
`Spec.Rules` and `Spec.TLS`. -/
structure Ingress where
  name : String
  ns : String
  anns : List (String × String)
  rules : List IngressRule
  tls : List IngressTLS
deriving DecidableEq

/-- Go map indexing `m[k]` for a `map[string]string`: the first binding of the
key, or the zero value `""` when absent (keys of a Go map are unique). -/
def lookupAnn (anns : List (String × String)) (key : String) : String :=
  match anns.find? (fun kv => kv.1 == key) with
  | some kv => kv.2
  | none => ""

/-- The hide test of `GetVisibleIngresses`:
`ingress.Annotations[HideAnnotation] == "true"`. -/
def shouldHide (ing : Ingress) : Bool :=
  lookupAnn ing.anns hideKey == "true"

/-- The first-path extraction of `extractIngressInfo`:
`rule.HTTP != nil && len(rule.HTTP.Paths) > 0` gives `rule.HTTP.Paths[0].Path`,
otherwise the zero value `""`. -/
def firstPath (rule : IngressRule) : String :=
  match rule.http with
  | some h =>
    match h.paths with
    | [] => ""
    | p :: _ => p.path
  | none => ""

/-- The TLS scan of `extractIngressInfo`: the protocol ends up `"https"`
exactly when some TLS block lists `host` (the inner `break` never resets it). -/
def tlsHasHost (tls : List IngressTLS) (host : String) : Bool :=
  tls.any (fun t => t.hosts.any (fun h => h == host))

/-- Function `extractIngressInfo` from k8s.go: project an ingress onto the first rule's
host, the first rule's first HTTP path, and a URL built from the TLS-derived
protocol; all three stay `""` when there is no rule, and the URL stays `""`
when the first rule's host is `""`. -/
def extractIngressInfo (ing : Ingress) : IngressInfo :=
  match ing.rules with
  | [] => { Name := ing.name, Namespace := ing.ns, Host := "", Path := "", URL := "" }
  | rule :: _ =>
    let host := rule.host
    let path := firstPath rule
    let protocol := if tlsHasHost ing.tls host then "https" else "http"
    let url := if host == "" then "" else protocol ++ "://" ++ host ++ path
    { Name := ing.name, Namespace := ing.ns, Host := host, Path := path, URL := url }

/-- The comparator of the `sort.Slice` call in `GetVisibleIngresses`, as the
reflexive relation a sorted permutation satisfies: the comparator is
`i.Name < j.Name`, so consecutively sorted elements satisfy `¬ (b.Name < a.Name)`,
i.e. `a.Name ≤ b.Name`. -/
def ingressLE (a b : IngressInfo) : Prop := a.Name ≤ b.Name

instance : DecidableRel ingressLE := fun a b =>
  inferInstanceAs (Decidable (a.Name ≤ b.Name))

instance : IsTotal IngressInfo ingressLE := ⟨fun a b => le_total a.Name b.Name⟩

instance : IsTrans IngressInfo ingressLE := ⟨fun _ _ _ h h' => le_trans h h'⟩

/-- The host of the first rule, `""` when there is no rule: the quantity whose
non-emptiness decides whether `extractIngressInfo` produces a URL. -/
def firstRuleHost (ing : Ingress) : String :=
  match ing.rules with
  | [] => ""
  | r :: _ => r.host

/-- The loop body of `GetVisibleIngresses` on a fetched ingress list, before
sorting: skip the hidden ones, project, keep projections with a non-empty URL. -/
def rawVisibleIngresses (items : List Ingress) : List IngressInfo :=
  ((items.filter (fun i => !shouldHide i)).map extractIngressInfo).filter
    (fun info => info.URL != "")

/-- The loop body plus `sort.Slice` of `GetVisibleIngresses`: sort by name. -/
def visibleIngresses (items : List Ingress) : List IngressInfo :=
  List.insertionSort ingressLE (rawVisibleIngresses items)

/-- Function `getDemoIngresses` from k8s.go. -/
def getDemoIngresses : List IngressInfo :=
  [ { Name := "grafana", Namespace := "monitoring", Host := "grafana.example.com",
      Path := "/", URL := "https://grafana.example.com/" },
    { Name := "home-assistant", Namespace := "home-automation", Host := "hass.example.com",
      Path := "/", URL := "https://hass.example.com/" },
    { Name := "jellyfin", Namespace := "media", Host := "media.example.com",
      Path := "/", URL := "https://media.example.com/" },
    { Name := "nextcloud", Namespace := "productivity", Host := "cloud.example.com",
      Path := "/", URL := "https://cloud.example.com/" },
    { Name := "portainer", Namespace := "management", Host := "portainer.example.com",
      Path := "/", URL := "https://portainer.example.com/" } ]

/-- Function `GetVisibleIngresses` from k8s.go.  `client = none` models a nil receiver or
clientset; `some r` carries the outcome `r` of the `Ingresses("").List` call. -/
def GetVisibleIngresses (client : Option (Except String (List Ingress))) :
    Except String (List IngressInfo) :=
  match client with
  | none => .ok getDemoIngresses
  | some (.error e) => .error ("failed to list ingresses: " ++ e)
  | some (.ok items) => .ok (visibleIngresses items)

/-- Structure `Bookmark` from config.go. -/
structure Bookmark where
  Name : String
  URL : String
  Category : String
deriving DecidableEq

/-- Structure `Config` from config.go. -/
structure Config where
  Bookmarks : List Bookmark
  Title : String
deriving DecidableEq

/-- A `corev1.ConfigMap` restricted to its `Data` field, as an association
list (Go map iteration order is arbitrary; keys are unique). -/
structure ConfigMap where
  data : List (String × String)
deriving DecidableEq

/-- Go `strings.TrimSpace` on the character list (the source only trims ASCII
whitespace in practice; `Char.isWhitespace` covers space, tab, CR, LF). -/
def trimSpace (s : String) : String :=
  String.mk (((s.data.dropWhile Char.isWhitespace).reverse.dropWhile Char.isWhitespace).reverse)

/-- Go `strings.Split` specialised to the single-character separator the source
uses: maximal runs between occurrences of `sep`, so `""` yields `[""]` and a
trailing separator yields a trailing `""`, exactly as in Go. -/
def splitOnChar (sep : Char) : List Char → List (List Char)
  | [] => [[]]
  | c :: rest =>
    let r := splitOnChar sep rest
    if c == sep then [] :: r
    else
      match r with
      | g :: gs => (c :: g) :: gs
      | [] => [[c]]

/-- Go `strings.Split(value, "|")` as strings. -/
def splitPipes (value : String) : List String :=
  (splitOnChar '|' value.data).map String.mk

/-- Function `isSeparator` from Go's `strings` package, for the ASCII range (non-ASCII
letters, digits and most symbols are not separators in Go either; the only
divergence is exotic non-ASCII whitespace, which no claim touches). -/
def isSeparator (c : Char) : Bool :=
  if c.toNat ≤ 0x7F then
    !(('0' ≤ c && c ≤ '9') || ('a' ≤ c && c ≤ 'z') || ('A' ≤ c && c ≤ 'Z') || c == '_')
  else
    false

/-- The rune-mapping loop of `strings.Title`: a rune following a separator is
title-cased (for ASCII, upper-cased); the running `prev` starts at `' '`. -/
def titleMap (prev : Char) : List Char → List Char
  | [] => []
  | c :: cs =>
    let c' := if isSeparator prev then c.toUpper else c
    c' :: titleMap c cs

/-- Go `strings.Title`, as used on the bookmark name. -/
def stringsTitle (s : String) : String :=
  String.mk (titleMap ' ' s.data)

/-- Go `strings.TrimPrefix(key, "bookmark-")`: drop the prefix when present
(`"bookmark-"` is 9 characters). -/
def trimBookmarkKeyStart (key : String) : String :=
  if "bookmark-".data.isPrefixOf key.data then String.mk (key.data.drop 9) else key

/-- Go `strings.HasPrefix(name, "bookmark-")` on the association-list key. -/
def hasBookmarkKeyStart (key : String) : Bool :=
  "bookmark-".data.isPrefixOf key.data

/-- Function `parseBookmarkEntry` from config.go: the name comes from the key (strip
the `bookmark-` start, turn every `-` into a space, title-case), the URL is
the trimmed text before the first `|`, the category the trimmed text between
the first and second `|` (`"General"` when that is empty or missing). -/
def parseBookmarkEntry (key value : String) : Bookmark :=
  let name := stringsTitle (String.mk ((trimBookmarkKeyStart key).data.map
    (fun c => if c == '-' then ' ' else c)))
  let parts := splitPipes value
  let url := match parts with
    | p :: _ => trimSpace p
    | [] => ""
  let category0 := match parts with
    | _ :: c :: _ => trimSpace c
    | _ => ""
  let category := if category0 = "" then "General" else category0
  { Name := name, URL := url, Category := category }

/-- The comparator of the `sort.Slice` call in `parseBookmarks`, as the
reflexive relation a sorted permutation satisfies: the comparator orders by
category, ties by name. -/
def bookmarkLE (a b : Bookmark) : Prop :=
  a.Category < b.Category ∨ (a.Category = b.Category ∧ a.Name ≤ b.Name)

instance : DecidableRel bookmarkLE := fun a b =>
  inferInstanceAs (Decidable (a.Category < b.Category ∨ (a.Category = b.Category ∧ a.Name ≤ b.Name)))

instance : IsTotal Bookmark bookmarkLE where
  total a b := by
    rcases lt_trichotomy a.Category b.Category with h | h | h
    · exact Or.inl (Or.inl h)
    · rcases le_total a.Name b.Name with h' | h'
      · exact Or.inl (Or.inr ⟨h, h'⟩)
      · exact Or.inr (Or.inr ⟨h.symm, h'⟩)
    · exact Or.inr (Or.inl h)

instance : IsTrans Bookmark bookmarkLE where
  trans a b c hab hbc := by
    rcases hab with h | ⟨he, hn⟩
    · rcases hbc with h' | ⟨he', _⟩
      · exact Or.inl (h.trans h')
      · exact Or.inl (he' ▸ h)
    · rcases hbc with h' | ⟨he', hn'⟩
      · exact Or.inl (he ▸ h')
      · exact Or.inr ⟨he.trans he', hn.trans hn'⟩

/-- The loop of `parseBookmarks` from config.go, before sorting: keep the
entries whose key starts with `bookmark-`, parse each, drop those with an
empty URL. -/
def rawBookmarks (configMap : ConfigMap) : List Bookmark :=
  ((configMap.data.filter (fun kv => hasBookmarkKeyStart kv.1)).map
    (fun kv => parseBookmarkEntry kv.1 kv.2)).filter (fun b => b.URL != "")

/-- Function `parseBookmarks` from config.go: the loop above plus the `sort.Slice` by
category then name. -/
def parseBookmarks (configMap : ConfigMap) : List Bookmark :=
  List.insertionSort bookmarkLE (rawBookmarks configMap)

/-- Function `getDefaultBookmarks` from config.go. -/
def getDefaultBookmarks : List Bookmark :=
  [ { Name := "Hacker News", URL := "https://news.ycombinator.com", Category := "News" },
    { Name := "Bracket City", URL := "https://www.theatlantic.com/games/bracket-city/",
      Category := "Games" } ]

/-- Function `LoadBookmarks` from config.go.  `fetch = none` models a nil clientset;
`some r` carries the outcome `r` of the `ConfigMaps(...).Get` call.  Both
failure modes fall back to the defaults and return no error. -/
def LoadBookmarks (fetch : Option (Except String ConfigMap)) :
    Except String (List Bookmark) :=
  match fetch with
  | none => .ok getDefaultBookmarks
  | some (.error _) => .ok getDefaultBookmarks
  | some (.ok cm) => .ok (parseBookmarks cm)

/-- Function `GetConfig` from config.go: bookmarks via `LoadBookmarks`; the title is the
ConfigMap's non-empty `title` value when the clientset exists and the fetch
succeeds, else `"Go Home"`.  (The source fetches the same ConfigMap twice; in
the model both fetches see the same outcome.) -/
def GetConfig (fetch : Option (Except String ConfigMap)) : Except String Config :=
  match LoadBookmarks fetch with
  | .error e => .error ("failed to load bookmarks: " ++ e)
  | .ok bookmarks =>
    let title := match fetch with
      | some (.ok cm) =>
        match cm.data.find? (fun kv => kv.1 == "title") with
        | some kv => if kv.2 != "" then kv.2 else "Go Home"
        | none => "Go Home"
      | _ => "Go Home"
    .ok { Bookmarks := bookmarks, Title := title }

/-- A live cluster connection, as seen by one request: the outcome of the
ingress `List` call and of the ConfigMap `Get` call. -/
structure ClusterConn where
  listIngresses : Except String (List Ingress)
  getConfigMap : Except String ConfigMap

/-- Structure `PageData` from the server source. -/
structure PageData where
  Config : Config
  Ingresses : List IngressInfo
  Error : String
  DemoMode : Bool
deriving DecidableEq

/-- Function `handleHome` from the server source, up to template rendering: on a
config error substitute the default config, on a listing error an empty
ingress list; `DemoMode` is `s.k8sClient == nil`, i.e. no cluster connection. -/
def handleHome (cluster : Option ClusterConn) : PageData :=
  let config := match GetConfig (cluster.map (fun c => c.getConfigMap)) with
    | .ok c => c
    | .error _ => { Title := "Go Home", Bookmarks := [] }
  let ingresses := match GetVisibleIngresses (cluster.map (fun c => c.listIngresses)) with
    | .ok is => is
    | .error _ => []
  { Config := config, Ingresses := ingresses, Error := "", DemoMode := cluster.isNone }

/-! ## Helper lemmas -/

/-- A four-fold append whose second component is non-empty is non-empty. -/
theorem append4_ne_empty (p q h t : String) (hq : q.data ≠ []) : p ++ q ++ h ++ t ≠ "" := by
  intro hc
  have hd := congrArg String.data hc
  simp only [String.data_append] at hd
  have h1 : p.data ++ q.data = [] := (List.append_eq_nil.mp (List.append_eq_nil.mp hd).1).1
  exact hq (List.append_eq_nil.mp h1).2

/-- The projection's URL is non-empty exactly when the first rule's host is. -/
theorem extract_url_ne_iff (ing : Ingress) :
    (extractIngressInfo ing).URL ≠ "" ↔ firstRuleHost ing ≠ "" := by
  obtain ⟨n, ns, anns, rules, tls⟩ := ing
  cases rules with
  | nil => simp [extractIngressInfo, firstRuleHost]
  | cons r rs =>
    simp only [extractIngressInfo, firstRuleHost]
    by_cases h : r.host = ""
    · simp [h]
    · have hb : (r.host == "") = false := by simp [h]
      simp only [hb, Bool.false_eq_true, if_false]
      constructor
      · intro _; exact h
      · intro _
        exact append4_ne_empty _ _ _ _ (by decide)

/-- Every bookmark produced by `parseBookmarkEntry` carries a non-empty
category: the empty category is replaced by `"General"`. -/
theorem parseBookmarkEntry_category_ne (k v : String) :
    (parseBookmarkEntry k v).Category ≠ "" := by
  unfold parseBookmarkEntry
  by_cases h : (match splitPipes v with | _ :: c :: _ => trimSpace c | _ => "") = ""
  · simp only [h, if_pos rfl]
    decide
  · simpa only [if_neg h] using h

/-- The demo ingresses are sorted by name. -/
theorem demo_sorted : List.Pairwise ingressLE getDemoIngresses := by
  rw [← List.chain'_iff_pairwise]
  simp only [getDemoIngresses, List.chain'_cons, List.chain'_singleton, and_true]
  refine ⟨?_, ?_, ?_, ?_⟩ <;>
    · simp only [ingressLE]
      rw [String.le_iff_toList_le]
      decide

/-! ## C1 -/

/-- An ingress whose first rule has an empty host but whose second rule has a
non-empty one: the claim predicts it appears, the code drops it. -/
def laterHostIng : Ingress :=
  { name := "app", ns := "default", anns := [],
    rules := [⟨"", none⟩, ⟨"a.com", none⟩], tls := [] }

/-- C1 fails as stated: `laterHostIng` is not hidden and has a rule with a
non-empty host, yet the returned sequence is empty. -/
theorem hide_filter_claim_counterexample :
    shouldHide laterHostIng = false ∧
    (∃ r ∈ laterHostIng.rules, r.host ≠ "") ∧
    visibleIngresses [laterHostIng] = [] := by
  refine ⟨rfl, by decide, rfl⟩

/-- C1, amended to the first rule's host: the multiplicity of any display
record in the output equals the number of input ingresses that are not hidden
(`hide` annotation not `"true"`), whose first rule has a non-empty host, and
whose projection is that record.  Hidden ingresses therefore never contribute,
and every other ingress whose first rule has a non-empty host contributes
exactly one record. -/
theorem visibleIngresses_count (l : List Ingress) (r : IngressInfo) :
    (visibleIngresses l).countP (fun x => x == r) =
      l.countP (fun i =>
        !shouldHide i && (firstRuleHost i != "") && (extractIngressInfo i == r)) := by
  unfold visibleIngresses
  rw [(List.perm_insertionSort ingressLE (rawVisibleIngresses l)).countP_eq]
  unfold rawVisibleIngresses
  rw [List.countP_filter, List.countP_map, List.countP_filter]
  apply List.countP_congr
  intro i _
  simp only [Function.comp, Bool.and_eq_true, beq_iff_eq, bne_iff_ne, ne_eq,
    Bool.not_eq_true']
  constructor
  · rintro ⟨⟨hre, hurl⟩, hh⟩
    exact ⟨⟨hh, (extract_url_ne_iff i).mp hurl⟩, hre⟩
  · rintro ⟨⟨hh, hfh⟩, hre⟩
    exact ⟨⟨hre, (extract_url_ne_iff i).mpr hfh⟩, hh⟩

/-! ## C2 -/

/-- C2 fails as stated: for a value with two pipes the text after the first
`|` is `"News|Extra"`, but the parsed category is only the text between the
first and second `|`. -/
theorem pipe_split_claim_counterexample :
    (parseBookmarkEntry "bookmark-x" "https://a.com|News|Extra").Category = "News" ∧
    (parseBookmarkEntry "bookmark-x" "https://a.com|News|Extra").Category ≠
      trimSpace "News|Extra" := by
  exact ⟨by decide, by decide⟩

/-- C2, amended to Go's `strings.Split` semantics: the value is split on every
`|`; the URL is the trimmed first piece, the category the trimmed second piece
(the text between the first and second `|`), defaulting to `"General"` when
empty or missing, and any pieces after the second `|` are discarded.  The two
concrete examples of the claim hold unchanged. -/
theorem parseBookmarkEntry_value_spec :
    (∀ k v, (parseBookmarkEntry k v).URL = trimSpace ((splitPipes v).headD "") ∧
      (parseBookmarkEntry k v).Category =
        (if trimSpace ((splitPipes v).getD 1 "") = "" then "General"
         else trimSpace ((splitPipes v).getD 1 ""))) ∧
    (parseBookmarkEntry "bookmark-a" "https://a.com|News") =
      { Name := "A", URL := "https://a.com", Category := "News" } ∧
    (parseBookmarkEntry "bookmark-a" "https://a.com") =
      { Name := "A", URL := "https://a.com", Category := "General" } := by
  refine ⟨fun k v => ?_, by decide, by decide⟩
  unfold parseBookmarkEntry
  rcases hp : splitPipes v with _ | ⟨p, rest⟩
  · simp [hp, show trimSpace "" = "" from rfl]
  · rcases rest with _ | ⟨c, rest'⟩ <;>
      simp [hp, List.getD, show trimSpace "" = "" from rfl]

/-! ## C3 -/

/-- C3: any ingress sequence the lister returns successfully — from a live
listing or the demo fallback — is sorted by name ascending (code-point order,
which equals byte-wise order on UTF-8 strings). -/
theorem getVisibleIngresses_sorted (client : Option (Except String (List Ingress)))
    (out : List IngressInfo) (h : GetVisibleIngresses client = .ok out) :
    List.Pairwise (fun a b => a.Name ≤ b.Name) out := by
  cases client with
  | none =>
    simp only [GetVisibleIngresses, Except.ok.injEq] at h
    exact h ▸ demo_sorted
  | some res =>
    cases res with
    | error e => simp [GetVisibleIngresses] at h
    | ok items =>
      simp only [GetVisibleIngresses, Except.ok.injEq] at h
      exact h ▸ List.sorted_insertionSort ingressLE (rawVisibleIngresses items)

/-- A listing whose two ingresses arrive in reverse name order. -/
def reversedPair : List Ingress :=
  [ { name := "b", ns := "ns", anns := [], rules := [⟨"b.com", none⟩], tls := [] },
    { name := "a", ns := "ns", anns := [], rules := [⟨"a.com", none⟩], tls := [] } ]

/-- Witness: the sortedness theorem applied to a concrete reversed listing. -/
theorem getVisibleIngresses_sorted_witness :
    List.Pairwise (fun a b : IngressInfo => a.Name ≤ b.Name) (visibleIngresses reversedPair) :=
  getVisibleIngresses_sorted (some (.ok reversedPair)) (visibleIngresses reversedPair) rfl

/-! ## C4 -/

/-- C4: the projection reads host and path from the first rule only, the
protocol is `https` exactly when some TLS block lists that host, the URL is
`protocol://host + path`; with no rule or an empty first-rule host the URL is
empty, and no record with an empty URL ever reaches the lister's output. -/
theorem extractIngressInfo_spec (ing : Ingress) :
    (∀ r rs, ing.rules = r :: rs → r.host ≠ "" →
        (extractIngressInfo ing).Host = r.host ∧
        (extractIngressInfo ing).Path = firstPath r ∧
        (extractIngressInfo ing).URL =
          (if tlsHasHost ing.tls r.host then "https" else "http") ++ "://" ++
            r.host ++ firstPath r) ∧
    (firstRuleHost ing = "" → (extractIngressInfo ing).URL = "") ∧
    (∀ l x, x ∈ visibleIngresses l → x.URL ≠ "") := by
  obtain ⟨n, ns, anns, rules, tls⟩ := ing
  refine ⟨?_, ?_, ?_⟩
  · intro r rs hr hhost
    subst hr
    have hb : (r.host == "") = false := by simp [hhost]
    simp [extractIngressInfo, hb]
  · intro hh
    cases rules with
    | nil => rfl
    | cons r rs =>
      simp only [firstRuleHost] at hh
      simp [extractIngressInfo, hh]
  · intro l x hx
    have hx' : x ∈ rawVisibleIngresses l := by
      simpa [visibleIngresses] using hx
    have := (List.mem_filter.mp hx').2
    simpa [bne_iff_ne] using this

/-- An ingress with one rule, one path and a matching TLS host. -/
def tlsIng : Ingress :=
  { name := "app", ns := "default", anns := [],
    rules := [⟨"a.com", some ⟨[⟨"/x"⟩]⟩⟩], tls := [⟨["a.com"]⟩] }

/-- An ingress with no rules at all. -/
def ruleLessIng : Ingress :=
  { name := "bare", ns := "default", anns := [], rules := [], tls := [] }

/-- Witness: the projection theorem applied to `tlsIng` (giving an `https`
URL) and to `ruleLessIng` (giving an empty URL). -/
theorem extractIngressInfo_spec_witness :
    (extractIngressInfo tlsIng).Host = "a.com" ∧
    (extractIngressInfo tlsIng).URL = "https://a.com/x" ∧
    (extractIngressInfo ruleLessIng).URL = "" := by
  have h1 := (extractIngressInfo_spec tlsIng).1 ⟨"a.com", some ⟨[⟨"/x"⟩]⟩⟩ [] rfl (by decide)
  have h2 := (extractIngressInfo_spec ruleLessIng).2.1 rfl
  exact ⟨h1.1, h1.2.2.trans (by decide), h2⟩

/-! ## C5 -/

/-- C5: exactly the entries whose key starts with `bookmark-` become bookmark
records (those with a non-empty parsed URL); the record's name is the key with
the `bookmark-` prefix removed, every `-` turned into a space, title-cased;
and `bookmark-hacker-news` yields the name `"Hacker News"`. -/
theorem parseBookmarks_keys_spec :
    (∀ cm b, b ∈ parseBookmarks cm →
        ∃ kv ∈ cm.data, hasBookmarkKeyStart kv.1 = true ∧ parseBookmarkEntry kv.1 kv.2 = b) ∧
    (∀ cm k v, (k, v) ∈ cm.data → hasBookmarkKeyStart k = true →
        (parseBookmarkEntry k v).URL ≠ "" → parseBookmarkEntry k v ∈ parseBookmarks cm) ∧
    (∀ k v rest, k.data = "bookmark-".data ++ rest →
        (parseBookmarkEntry k v).Name =
          stringsTitle (String.mk (rest.map (fun c => if c == '-' then ' ' else c)))) ∧
    (parseBookmarkEntry "bookmark-hacker-news" "https://news.ycombinator.com").Name =
      "Hacker News" := by
  refine ⟨?_, ?_, ?_, by decide⟩
  · intro cm b hb
    have hb' : b ∈ rawBookmarks cm := by
      simpa [parseBookmarks] using hb
    obtain ⟨hmem, _⟩ := List.mem_filter.mp hb'
    obtain ⟨kv, hkv, hparse⟩ := List.mem_map.mp hmem
    exact ⟨kv, (List.mem_filter.mp hkv).1, (List.mem_filter.mp hkv).2, hparse⟩
  · intro cm k v hmem hpre hurl
    have h1 : (k, v) ∈ cm.data.filter (fun kv => hasBookmarkKeyStart kv.1) :=
      List.mem_filter.mpr ⟨hmem, hpre⟩
    have h2 : parseBookmarkEntry k v ∈
        (cm.data.filter (fun kv => hasBookmarkKeyStart kv.1)).map
          (fun kv => parseBookmarkEntry kv.1 kv.2) :=
      List.mem_map.mpr ⟨(k, v), h1, rfl⟩
    have h3 : parseBookmarkEntry k v ∈ rawBookmarks cm :=
      List.mem_filter.mpr ⟨h2, by simpa [bne_iff_ne] using hurl⟩
    simpa [parseBookmarks] using h3
  · intro k v rest hk
    have hpre : "bookmark-".data.isPrefixOf k.data = true := by
      rw [hk]
      exact List.isPrefixOf_iff_prefix.mpr (List.prefix_append _ _)
    have hdrop : k.data.drop 9 = rest := by
      rw [hk]
      exact List.drop_left "bookmark-".data rest
    show stringsTitle (String.mk ((trimBookmarkKeyStart k).data.map _)) = _
    rw [trimBookmarkKeyStart, if_pos hpre, hdrop]

/-- A concrete ConfigMap with a title, one bookmark entry and a stray key. -/
def hnConfigMap : ConfigMap :=
  ⟨[("title", "T"),
    ("bookmark-hacker-news", "https://news.ycombinator.com|News"),
    ("other", "x")]⟩

/-- Witness: the key theorem applied to `hnConfigMap` puts the parsed
Hacker-News entry in the output, with the title-cased name. -/
theorem parseBookmarks_keys_spec_witness :
    parseBookmarkEntry "bookmark-hacker-news" "https://news.ycombinator.com|News" ∈
      parseBookmarks hnConfigMap ∧
    (parseBookmarkEntry "bookmark-hacker-news" "https://news.ycombinator.com|News").Name =
      "Hacker News" := by
  refine ⟨parseBookmarks_keys_spec.2.1 hnConfigMap _ _ (by decide) (by decide) (by decide), ?_⟩
  exact parseBookmarks_keys_spec.2.2.1 _ "https://news.ycombinator.com|News"
    "hacker-news".data (by decide)

/-! ## C6 -/

/-- C6: for every configuration map the parsed bookmark sequence is sorted
ascending by category, ties ordered ascending by name; and a successful fetch
makes the loader return exactly that sequence. -/
theorem parseBookmarks_sorted (cm : ConfigMap) :
    (parseBookmarks cm).Pairwise (fun a b =>
      a.Category < b.Category ∨ (a.Category = b.Category ∧ a.Name ≤ b.Name)) ∧
    LoadBookmarks (some (.ok cm)) = .ok (parseBookmarks cm) :=
  ⟨List.sorted_insertionSort bookmarkLE (rawBookmarks cm), rfl⟩

/-! ## C7 -/

/-- C7: with no cluster connection, or a failed ConfigMap fetch, the loader
returns the built-in defaults and the title `"Go Home"`, and never an error. -/
theorem loadBookmarks_fallback (fetch : Option (Except String ConfigMap))
    (h : fetch = none ∨ ∃ e, fetch = some (.error e)) :
    LoadBookmarks fetch = .ok getDefaultBookmarks ∧
    GetConfig fetch = .ok { Bookmarks := getDefaultBookmarks, Title := "Go Home" } := by
  rcases h with h | ⟨e, h⟩ <;> subst h <;> exact ⟨rfl, rfl⟩

/-- Witness: the fallback theorem applied to an absent cluster connection. -/
theorem loadBookmarks_fallback_witness :
    LoadBookmarks none = .ok getDefaultBookmarks ∧
    GetConfig none = .ok { Bookmarks := getDefaultBookmarks, Title := "Go Home" } :=
  loadBookmarks_fallback none (Or.inl rfl)

/-! ## C8 -/

/-- C8: with no cluster connection the lister returns the sample ingresses
without error, the bookmark loader its defaults, and the composed page has
`DemoMode = true`. -/
theorem demoMode_defaults :
    GetVisibleIngresses none = .ok getDemoIngresses ∧
    LoadBookmarks none = .ok getDefaultBookmarks ∧
    handleHome none =
      { Config := { Bookmarks := getDefaultBookmarks, Title := "Go Home" },
        Ingresses := getDemoIngresses, Error := "", DemoMode := true } :=
  ⟨rfl, rfl, rfl⟩

/-! ## C9 -/

/-- C9: every bookmark the loader ever returns — parsed or default — has a
non-empty category and a non-empty URL. -/
theorem loadBookmarks_fields_nonempty (fetch : Option (Except String ConfigMap))
    (l : List Bookmark) (h : LoadBookmarks fetch = .ok l) :
    ∀ b ∈ l, b.Category ≠ "" ∧ b.URL ≠ "" := by
  have hdef : ∀ b ∈ getDefaultBookmarks, b.Category ≠ "" ∧ b.URL ≠ "" := by decide
  match fetch with
  | none =>
    simp only [LoadBookmarks, Except.ok.injEq] at h
    exact h ▸ hdef
  | some (.error e) =>
    simp only [LoadBookmarks, Except.ok.injEq] at h
    exact h ▸ hdef
  | some (.ok cm) =>
    simp only [LoadBookmarks, Except.ok.injEq] at h
    subst h
    intro b hb
    have hb' : b ∈ rawBookmarks cm := by
      simpa [parseBookmarks] using hb
    obtain ⟨hmem, hurl⟩ := List.mem_filter.mp hb'
    obtain ⟨kv, _, hkv⟩ := List.mem_map.mp hmem
    exact ⟨hkv ▸ parseBookmarkEntry_category_ne kv.1 kv.2, by simpa [bne_iff_ne] using hurl⟩

/-- Witness: the field theorem applied to the default list's first bookmark. -/
theorem loadBookmarks_fields_nonempty_witness :
    (Bookmark.mk "Hacker News" "https://news.ycombinator.com" "News").Category ≠ "" ∧
    (Bookmark.mk "Hacker News" "https://news.ycombinator.com" "News").URL ≠ "" :=
  loadBookmarks_fields_nonempty none getDefaultBookmarks rfl _ (by decide)

/-! ## C10 -/

/-- The sort key of a bookmark: the pair the comparator orders by. -/
def bookmarkKey (b : Bookmark) : String × String := (b.Category, b.Name)

/-- The sorted-and-distinct relation used to show a sorted permutation with
pairwise-distinct keys is unique. -/
def bookmarkLEKeyNe (a b : Bookmark) : Prop :=
  bookmarkLE a b ∧ bookmarkKey a ≠ bookmarkKey b

instance : IsAntisymm Bookmark bookmarkLEKeyNe where
  antisymm a b hab hba := by
    obtain ⟨h1, hne⟩ := hab
    obtain ⟨h2, _⟩ := hba
    exfalso
    apply hne
    rcases h1 with hlt | ⟨he, hn⟩
    · rcases h2 with hlt' | ⟨he', _⟩
      · exact absurd (hlt.trans hlt') (lt_irrefl _)
      · rw [he'] at hlt
        exact absurd hlt (lt_irrefl _)
    · rcases h2 with hlt' | ⟨he', hn'⟩
      · rw [he] at hlt'
        exact absurd hlt' (lt_irrefl _)
      · simp [bookmarkKey, he, le_antisymm hn hn']

/-- C10: two parses of the same configuration map seen in different iteration
orders agree, provided the parsed entries have pairwise-distinct
(category, name) pairs. -/
theorem parseBookmarks_deterministic (cm1 cm2 : ConfigMap)
    (hperm : cm1.data.Perm cm2.data)
    (hdist : (rawBookmarks cm1).Pairwise
      (fun a b => (a.Category, a.Name) ≠ (b.Category, b.Name))) :
    parseBookmarks cm1 = parseBookmarks cm2 := by
  have hraw : (rawBookmarks cm1).Perm (rawBookmarks cm2) :=
    ((hperm.filter _).map _).filter _
  have hsp1 := List.perm_insertionSort bookmarkLE (rawBookmarks cm1)
  have hsp2 := List.perm_insertionSort bookmarkLE (rawBookmarks cm2)
  have hp : (parseBookmarks cm1).Perm (parseBookmarks cm2) :=
    hsp1.trans (hraw.trans hsp2.symm)
  have hsymm : ∀ {x y : Bookmark}, bookmarkKey x ≠ bookmarkKey y → bookmarkKey y ≠ bookmarkKey x :=
    fun h => Ne.symm h
  have hdist' : (rawBookmarks cm1).Pairwise (fun a b => bookmarkKey a ≠ bookmarkKey b) := hdist
  have hd1 : (parseBookmarks cm1).Pairwise (fun a b => bookmarkKey a ≠ bookmarkKey b) :=
    (hsp1.pairwise_iff hsymm).mpr hdist'
  have hd2 : (parseBookmarks cm2).Pairwise (fun a b => bookmarkKey a ≠ bookmarkKey b) :=
    (hsp2.pairwise_iff hsymm).mpr ((hraw.pairwise_iff hsymm).mp hdist')
  have hs1 : List.Sorted bookmarkLEKeyNe (parseBookmarks cm1) :=
    (List.sorted_insertionSort bookmarkLE (rawBookmarks cm1)).and hd1
  have hs2 : List.Sorted bookmarkLEKeyNe (parseBookmarks cm2) :=
    (List.sorted_insertionSort bookmarkLE (rawBookmarks cm2)).and hd2
  exact List.eq_of_perm_of_sorted hp hs1 hs2

/-- Two iteration orders of the same two-entry configuration map. -/
def twoEntryMapA : ConfigMap :=
  ⟨[("bookmark-b", "https://b.com|C"), ("bookmark-a", "https://a.com|C")]⟩

/-- The same map, entries visited in the other order. -/
def twoEntryMapB : ConfigMap :=
  ⟨[("bookmark-a", "https://a.com|C"), ("bookmark-b", "https://b.com|C")]⟩

/-- Witness: the determinism theorem applied to the two iteration orders. -/
theorem parseBookmarks_deterministic_witness :
    parseBookmarks twoEntryMapA = parseBookmarks twoEntryMapB :=
  parseBookmarks_deterministic twoEntryMapA twoEntryMapB (List.Perm.swap _ _ _) (by decide)

end GoHome
